import Mathlib

/-!
Shallow embedding of the orbit camera / object control subsystem of the
demo-gems repository, together with theorems settling the specification
claims about it.

Sources embedded:
- `src/shared_js/zoomcontrol.js` — `ZoomControl` (zoom level logic, wheel and
  pinch gesture handlers, `handleZoom`, `apply`).
- `src/unnamed/part_001` — `DriftControl` (two variants; the newer
  liveness-checked variant's constructor and `applyNormalizedRotations`).
- `src/unnamed/part_002` — `RotationControl` (`handlePointerMove`, the
  easing/momentum frame step, `findNearestCardinalRotation`,
  `startAutoRotation` completion, `easeInOutQuad`).

Modelling conventions: JS numbers are embedded as exact rationals where the
code is purely discrete (zoom levels, thresholds, timestamps) and as real
numbers where the code does continuous vector / trigonometric math.  A JS
division producing a non-finite value (`0/0 = NaN`) is embedded as `none` of
an `Option` result.  Environment builtins used by the code (`Math.atan2`,
`Math.round`) are defined here with their documented real-number semantics.
-/

namespace DemoGems

/-! ### ZoomControl: discrete zoom level model (src/shared_js/zoomcontrol.js)

The zoom-level component of `handleZoom` (lines 110-127) is independent of
the position component (lines 129-151), which is modelled separately below
over the reals.  The wheel and pinch handlers are modelled for the platform
branch in which they are live (wheel: non-iOS with a bound camera view model;
pinch: iOS with a bound camera view model). -/

/-- Options record of `ZoomControl` (constructor lines 7-15), with the
defaults used when no overrides are passed.  `maxZoom` 0.675 is exact as a
rational. -/
structure ZoomOptions where
  mobileWidth : ℚ
  mobilePosition : ℚ
  maxZoom : ℚ
  desktopPosition : ℚ
  debounceDelay : ℤ
  minWheelThreshold : ℚ

/-- Default option values from the constructor of `ZoomControl`. -/
def defaultZoomOptions : ZoomOptions :=
  { mobileWidth := 1024
    mobilePosition := 4000
    maxZoom := 0.675
    desktopPosition := 2500
    debounceDelay := 250
    minWheelThreshold := 5 }

/-- Mutable state of `ZoomControl` relevant to the level logic:
`zoomLevel` (line 22) and `lastWheelTime` (line 23). -/
structure ZoomState where
  zoomLevel : ℤ
  lastWheelTime : ℤ
deriving DecidableEq

/-- Zoom-level update of `handleZoom` (lines 110-127): a negative direction
argument zooms in (level + 1, only below 2), a positive one zooms out
(level - 1, only above 0), otherwise the level is unchanged. -/
def handleZoomLevel (zoomLevel : ℤ) (currentDirection : ℤ) : ℤ :=
  if currentDirection < 0 ∧ zoomLevel < 2 then zoomLevel + 1
  else if currentDirection > 0 ∧ zoomLevel > 0 then zoomLevel - 1
  else zoomLevel

/-- A zoom gesture event: a wheel event carrying `deltaY` (line 39) or an
iOS pinch event carrying `scale` (line 66). -/
inductive ZoomGesture where
  | wheel (deltaY : ℚ)
  | pinch (scale : ℚ)
deriving DecidableEq

/-- Combined gesture handling of `_wheelHandler` (lines 39-63) and
`_gestureHandler` (lines 66-85), restricted to the zoom-level state: the
wheel path rejects small deltas (line 46) and debounces (line 52), maps
`deltaY < 0` to direction 1 and otherwise to -1 (line 57); the pinch path
debounces (line 74) and maps `scale < 1` to direction 1 and otherwise to -1
(line 79); accepted gestures record the event time and run `handleZoom`. -/
def gestureStep (opts : ZoomOptions) (st : ZoomState) (g : ZoomGesture)
    (now : ℤ) : ZoomState :=
  match g with
  | .wheel deltaY =>
      if |deltaY| < opts.minWheelThreshold then st
      else if now - st.lastWheelTime < opts.debounceDelay then st
      else { zoomLevel := handleZoomLevel st.zoomLevel
               (if deltaY < 0 then 1 else -1)
             lastWheelTime := now }
  | .pinch scale =>
      if now - st.lastWheelTime < opts.debounceDelay then st
      else { zoomLevel := handleZoomLevel st.zoomLevel
               (if scale < 1 then 1 else -1)
             lastWheelTime := now }

/-- Initial `ZoomControl` state: `zoomLevel = 0`, `lastWheelTime = 0`
(lines 22-23). -/
def initialZoomState : ZoomState := { zoomLevel := 0, lastWheelTime := 0 }

/-- Folding a whole sequence of timestamped gestures through the handlers. -/
def runGestures (opts : ZoomOptions) (events : List (ZoomGesture × ℤ)) :
    ZoomState :=
  events.foldl (fun st e => gestureStep opts st e.1 e.2) initialZoomState

/-- Helper: `handleZoomLevel` keeps the level inside `[0, 2]`. -/
lemma handleZoomLevel_mem (lvl dir : ℤ) (h0 : 0 ≤ lvl) (h2 : lvl ≤ 2) :
    0 ≤ handleZoomLevel lvl dir ∧ handleZoomLevel lvl dir ≤ 2 := by
  unfold handleZoomLevel
  split_ifs <;> omega

/-- Helper: one gesture step keeps the level inside `[0, 2]`. -/
lemma gestureStep_mem (opts : ZoomOptions) (st : ZoomState) (g : ZoomGesture)
    (now : ℤ) (h0 : 0 ≤ st.zoomLevel) (h2 : st.zoomLevel ≤ 2) :
    0 ≤ (gestureStep opts st g now).zoomLevel ∧
      (gestureStep opts st g now).zoomLevel ≤ 2 := by
  cases g <;> simp only [gestureStep] <;> split_ifs <;>
    first
      | exact ⟨h0, h2⟩
      | simpa using handleZoomLevel_mem _ _ h0 h2

/-- Helper: the fold over any gesture sequence keeps the level in `[0, 2]`,
from any state satisfying the invariant. -/
lemma runGestures_mem (opts : ZoomOptions) (events : List (ZoomGesture × ℤ)) :
    ∀ st : ZoomState, 0 ≤ st.zoomLevel → st.zoomLevel ≤ 2 →
      0 ≤ (events.foldl (fun st e => gestureStep opts st e.1 e.2) st).zoomLevel ∧
        (events.foldl (fun st e => gestureStep opts st e.1 e.2) st).zoomLevel ≤ 2 := by
  induction events with
  | nil => intro st h0 h2; exact ⟨h0, h2⟩
  | cons e rest ih =>
      intro st h0 h2
      have hstep := gestureStep_mem opts st e.1 e.2 h0 h2
      simpa using ih _ hstep.1 hstep.2

/-- C1: for every sequence of zoom gestures starting from the constructed
state, the zoom level stays an integer in `[0, 2]`; and from any level in
`[0, 2]` an accepted gesture direction changes the level by exactly one step,
except that a zoom-in at level 2 and a zoom-out at level 0 change nothing. -/
theorem zoom_level_invariant :
    (∀ (opts : ZoomOptions) (events : List (ZoomGesture × ℤ)),
        0 ≤ (runGestures opts events).zoomLevel ∧
          (runGestures opts events).zoomLevel ≤ 2) ∧
    (∀ lvl dir : ℤ, 0 ≤ lvl → lvl ≤ 2 →
        (0 ≤ handleZoomLevel lvl dir ∧ handleZoomLevel lvl dir ≤ 2) ∧
        (dir < 0 → lvl < 2 → handleZoomLevel lvl dir = lvl + 1) ∧
        (0 < dir → 0 < lvl → handleZoomLevel lvl dir = lvl - 1) ∧
        (dir < 0 → lvl = 2 → handleZoomLevel lvl dir = lvl) ∧
        (0 < dir → lvl = 0 → handleZoomLevel lvl dir = lvl)) := by
  constructor
  · intro opts events
    exact runGestures_mem opts events initialZoomState (by decide) (by decide)
  · intro lvl dir h0 h2
    refine ⟨handleZoomLevel_mem lvl dir h0 h2, ?_, ?_, ?_, ?_⟩ <;>
      · intro ha hb
        unfold handleZoomLevel
        split_ifs <;> omega

/-- Witness for C1: concrete instantiation at level 1 with an accepted
zoom-in direction. -/
theorem zoom_level_invariant_witness :
    (0 : ℤ) ≤ 1 ∧ (1 : ℤ) ≤ 2 ∧ handleZoomLevel 1 (-1) = 1 + 1 :=
  ⟨by decide, by decide,
    ((zoom_level_invariant.2 1 (-1) (by decide) (by decide)).2.1
      (by decide) (by decide))⟩

/-- C2 counterexample: a wheel gesture with negative `deltaY = -10` at level
0, passing the magnitude threshold (5 ≤ 10) and outside the debounce
interval (250 ≤ 1000 - 0), does not raise the level to 1 as the claim
states: the code maps negative wheel deltas to zoom out. -/
theorem wheel_negative_delta_cex :
    defaultZoomOptions.minWheelThreshold ≤ |(-10 : ℚ)| ∧
    defaultZoomOptions.debounceDelay ≤ (1000 : ℤ) - initialZoomState.lastWheelTime ∧
    (gestureStep defaultZoomOptions initialZoomState (.wheel (-10)) 1000).zoomLevel ≠
      initialZoomState.zoomLevel + 1 := by
  refine ⟨by decide, by decide, ?_⟩
  decide

/-- C2 amended: for an accepted wheel gesture, a positive `deltaY` zooms in
(level + 1, clamped at 2) and a negative `deltaY` zooms out (level - 1,
clamped at 0), with no-ops at the respective boundaries; for an accepted
pinch gesture, pinch-out (`scale` at least 1) zooms in and pinch-in
(`scale < 1`) zooms out, likewise clamped. -/
theorem wheel_gesture_direction_amended (opts : ZoomOptions) (st : ZoomState)
    (now : ℤ) (h0 : 0 ≤ st.zoomLevel) (h2 : st.zoomLevel ≤ 2) :
    (∀ deltaY : ℚ, opts.minWheelThreshold ≤ |deltaY| →
      opts.debounceDelay ≤ now - st.lastWheelTime →
      (0 < deltaY →
        (st.zoomLevel < 2 →
          (gestureStep opts st (.wheel deltaY) now).zoomLevel = st.zoomLevel + 1) ∧
        (st.zoomLevel = 2 →
          (gestureStep opts st (.wheel deltaY) now).zoomLevel = st.zoomLevel)) ∧
      (deltaY < 0 →
        (0 < st.zoomLevel →
          (gestureStep opts st (.wheel deltaY) now).zoomLevel = st.zoomLevel - 1) ∧
        (st.zoomLevel = 0 →
          (gestureStep opts st (.wheel deltaY) now).zoomLevel = st.zoomLevel))) ∧
    (∀ scale : ℚ, opts.debounceDelay ≤ now - st.lastWheelTime →
      (1 ≤ scale →
        (st.zoomLevel < 2 →
          (gestureStep opts st (.pinch scale) now).zoomLevel = st.zoomLevel + 1) ∧
        (st.zoomLevel = 2 →
          (gestureStep opts st (.pinch scale) now).zoomLevel = st.zoomLevel)) ∧
      (scale < 1 →
        (0 < st.zoomLevel →
          (gestureStep opts st (.pinch scale) now).zoomLevel = st.zoomLevel - 1) ∧
        (st.zoomLevel = 0 →
          (gestureStep opts st (.pinch scale) now).zoomLevel = st.zoomLevel))) := by
  constructor
  · intro deltaY hthr hdeb
    have hnot1 : ¬ |deltaY| < opts.minWheelThreshold := not_lt.mpr hthr
    have hnot2 : ¬ now - st.lastWheelTime < opts.debounceDelay := not_lt.mpr hdeb
    constructor
    · intro hpos
      have hdir : ¬ deltaY < 0 := not_lt.mpr hpos.le
      constructor <;> intro hlvl <;>
        · simp only [gestureStep, hnot1, hnot2, if_false, hdir, if_neg]
          unfold handleZoomLevel
          split_ifs <;> omega
    · intro hneg
      constructor <;> intro hlvl <;>
        · simp only [gestureStep, hnot1, hnot2, if_false, hneg, if_pos]
          unfold handleZoomLevel
          split_ifs <;> omega
  · intro scale hdeb
    have hnot2 : ¬ now - st.lastWheelTime < opts.debounceDelay := not_lt.mpr hdeb
    constructor
    · intro hout
      have hdir : ¬ scale < 1 := not_lt.mpr hout
      constructor <;> intro hlvl <;>
        · simp only [gestureStep, hnot2, if_false, hdir, if_neg]
          unfold handleZoomLevel
          split_ifs <;> omega
    · intro hin
      constructor <;> intro hlvl <;>
        · simp only [gestureStep, hnot2, if_false, hin, if_pos]
          unfold handleZoomLevel
          split_ifs <;> omega

/-- Witness for the amended C2: an accepted positive-delta wheel gesture at
level 0 raises the level to 1. -/
theorem wheel_gesture_direction_amended_witness :
    (gestureStep defaultZoomOptions initialZoomState (.wheel 10) 1000).zoomLevel =
      initialZoomState.zoomLevel + 1 :=
  (((wheel_gesture_direction_amended defaultZoomOptions initialZoomState 1000
      (by decide) (by decide)).1 10 (by decide) (by decide)).1
    (by decide)).1 (by decide)

/-! ### Vectors and the ZoomControl position updates (real-number layer) -/

/-- Cartesian vector as in the JS `{x, y, z}` objects. -/
structure Vec3 where
  x : ℝ
  y : ℝ
  z : ℝ

/-- Euclidean length as computed throughout the code:
`Math.sqrt(p.x*p.x + p.y*p.y + p.z*p.z)`. -/
noncomputable def Vec3.norm (v : Vec3) : ℝ :=
  Real.sqrt (v.x * v.x + v.y * v.y + v.z * v.z)

/-- Componentwise scaling of a vector. -/
def Vec3.scale (c : ℝ) (v : Vec3) : Vec3 :=
  ⟨c * v.x, c * v.y, c * v.z⟩

lemma Vec3.norm_nonneg (v : Vec3) : 0 ≤ v.norm := Real.sqrt_nonneg _

lemma Vec3.norm_scale (c : ℝ) (v : Vec3) :
    (Vec3.scale c v).norm = |c| * v.norm := by
  unfold Vec3.norm Vec3.scale
  have h : c * v.x * (c * v.x) + c * v.y * (c * v.y) + c * v.z * (c * v.z) =
      (c * c) * (v.x * v.x + v.y * v.y + v.z * v.z) := by ring
  rw [h, Real.sqrt_mul (mul_self_nonneg c), Real.sqrt_mul_self_eq_abs]

lemma Vec3.scale_scale (a b : ℝ) (v : Vec3) :
    Vec3.scale a (Vec3.scale b v) = Vec3.scale (a * b) v := by
  simp [Vec3.scale, mul_assoc]

/-- Breakpoint-selected base distance (`handleZoom` line 116, `apply` line
189): the mobile base below the mobile width breakpoint, else the desktop
base. -/
def baseDistance (opts : ZoomOptions) (innerWidth : ℚ) : ℚ :=
  if innerWidth < opts.mobileWidth then opts.mobilePosition
  else opts.desktopPosition

/-- Position update of `handleZoom` for an accepted level change (lines
102-151): reads the current position, computes its length, the
breakpoint-selected base distance and `maxZoom ^ newZoomLevel`, and rescales
the normalized direction to the new distance.  When the current distance is
exactly 0 the JS division `0/0` yields `NaN` and the written position is
non-finite; this is embedded as `none`. -/
noncomputable def handleZoomPosition (opts : ZoomOptions) (innerWidth : ℚ)
    (currentPos : Vec3) (newZoomLevel : ℕ) : Option Vec3 :=
  let distance := currentPos.norm
  let newDistance : ℝ :=
    (baseDistance opts innerWidth : ℝ) * (opts.maxZoom : ℝ) ^ newZoomLevel
  if distance = 0 then none
  else some ⟨currentPos.x / distance * newDistance,
             currentPos.y / distance * newDistance,
             currentPos.z / distance * newDistance⟩

/-- Position update of `apply` (lines 185-222): the target distance is the
breakpoint-selected base distance alone; a zero-length current position is
replaced by the canonical forward-facing default `(0, 0, targetDistance)`
(lines 200-207), otherwise the normalized direction is rescaled. -/
noncomputable def applyPosition (targetDistance : ℝ) (currentPos : Vec3) :
    Vec3 :=
  let distance := currentPos.norm
  if distance = 0 then ⟨0, 0, targetDistance⟩
  else ⟨currentPos.x / distance * targetDistance,
        currentPos.y / distance * targetDistance,
        currentPos.z / distance * targetDistance⟩

/-- The `apply` method on the zoom level and camera position together:
`apply` never touches `zoomLevel` and sets the position from the breakpoint
base distance. -/
noncomputable def applyModel (opts : ZoomOptions) (innerWidth : ℚ)
    (st : ℤ × Vec3) : ℤ × Vec3 :=
  (st.1, applyPosition (baseDistance opts innerWidth : ℝ) st.2)

/-- Helper: the rescaled position written by `handleZoom` and `apply` is the
scaling of the input by `newDistance / distance`. -/
lemma rescale_eq_scale (p : Vec3) (d nd : ℝ) :
    (⟨p.x / d * nd, p.y / d * nd, p.z / d * nd⟩ : Vec3) =
      Vec3.scale (nd / d) p := by
  simp only [Vec3.scale, Vec3.mk.injEq]
  refine ⟨?_, ?_, ?_⟩ <;> ring

/-- Helper: norm of the rescaled position, for a nonzero input norm and a
nonnegative target distance. -/
lemma norm_rescale (p : Vec3) (nd : ℝ) (hp : p.norm ≠ 0) (hnd : 0 ≤ nd) :
    (Vec3.scale (nd / p.norm) p).norm = nd := by
  have hpos : 0 < p.norm := lt_of_le_of_ne p.norm_nonneg (Ne.symm hp)
  rw [Vec3.norm_scale, abs_of_nonneg (div_nonneg hnd hpos.le)]
  field_simp

/-- Helper: norm of a vector on the positive z axis. -/
lemma norm_mk00 (z : ℝ) (hz : 0 ≤ z) : (Vec3.mk 0 0 z).norm = z := by
  unfold Vec3.norm
  norm_num
  exact Real.sqrt_mul_self hz

/-- Helper: `apply` on a camera on the positive z axis rescales it in
place. -/
lemma applyPosition_mk00 (td z : ℝ) (hz : 0 < z) :
    applyPosition td ⟨0, 0, z⟩ = ⟨0, 0, td⟩ := by
  simp only [applyPosition]
  rw [norm_mk00 z hz.le, if_neg hz.ne']
  have h1 : z / z = 1 := div_self hz.ne'
  simp [h1]

/-- C3: for an accepted level change with the camera at nonzero distance,
`handleZoom` writes exactly the current normalized direction scaled by the
breakpoint-selected base distance times `maxZoom ^ newLevel`; the resulting
distance from the origin equals that product and the normalized direction is
preserved (for either breakpoint, since `innerWidth` is arbitrary). -/
theorem handle_zoom_position_spec (opts : ZoomOptions) (innerWidth : ℚ)
    (pos : Vec3) (lvl : ℕ) (hpos : pos.norm ≠ 0)
    (hmb : 0 < opts.mobilePosition) (hdb : 0 < opts.desktopPosition)
    (hmz : 0 < opts.maxZoom) :
    ∃ p : Vec3,
      handleZoomPosition opts innerWidth pos lvl = some p ∧
      p = Vec3.scale
            ((baseDistance opts innerWidth : ℝ) * (opts.maxZoom : ℝ) ^ lvl)
            (Vec3.scale (1 / pos.norm) pos) ∧
      p.norm = (baseDistance opts innerWidth : ℝ) * (opts.maxZoom : ℝ) ^ lvl ∧
      Vec3.scale (1 / p.norm) p = Vec3.scale (1 / pos.norm) pos := by
  set nd : ℝ :=
    (baseDistance opts innerWidth : ℝ) * (opts.maxZoom : ℝ) ^ lvl with hnddef
  have hbase : (0 : ℝ) < (baseDistance opts innerWidth : ℝ) := by
    unfold baseDistance
    split_ifs
    · exact_mod_cast hmb
    · exact_mod_cast hdb
  have hnd : 0 < nd := mul_pos hbase (pow_pos (by exact_mod_cast hmz) lvl)
  refine ⟨Vec3.scale (nd / pos.norm) pos, ?_, ?_, ?_, ?_⟩
  · simp only [handleZoomPosition]
    rw [if_neg hpos]
    exact congrArg some (rescale_eq_scale pos pos.norm nd)
  · rw [Vec3.scale_scale]
    congr 1
    field_simp
  · exact norm_rescale pos nd hpos hnd.le
  · rw [norm_rescale pos nd hpos hnd.le, Vec3.scale_scale]
    congr 1
    field_simp

/-- Witness for C3: camera at `(0, 0, 100)`, desktop breakpoint, level 1. -/
theorem handle_zoom_position_spec_witness :
    (Vec3.mk 0 0 100).norm ≠ 0 ∧
    ∃ p : Vec3,
      handleZoomPosition defaultZoomOptions 1280 ⟨0, 0, 100⟩ 1 = some p ∧
      p = Vec3.scale
            ((baseDistance defaultZoomOptions 1280 : ℝ) *
              (defaultZoomOptions.maxZoom : ℝ) ^ (1 : ℕ))
            (Vec3.scale (1 / (Vec3.mk 0 0 100).norm) ⟨0, 0, 100⟩) ∧
      p.norm = (baseDistance defaultZoomOptions 1280 : ℝ) *
          (defaultZoomOptions.maxZoom : ℝ) ^ (1 : ℕ) ∧
      Vec3.scale (1 / p.norm) p =
        Vec3.scale (1 / (Vec3.mk 0 0 100).norm) ⟨0, 0, 100⟩ := by
  have hn : (Vec3.mk 0 0 100).norm = 100 := norm_mk00 100 (by norm_num)
  have hne : (Vec3.mk 0 0 100).norm ≠ 0 := by rw [hn]; norm_num
  exact ⟨hne,
    handle_zoom_position_spec defaultZoomOptions 1280 ⟨0, 0, 100⟩ 1 hne
      (by norm_num [defaultZoomOptions]) (by norm_num [defaultZoomOptions])
      (by norm_num [defaultZoomOptions])⟩

/-- C4 counterexample: with stored zoom level 1, desktop breakpoint and the
camera at `(0, 0, 100)`, the resize-driven `apply` leaves the level at 1 but
sets the camera distance to the plain base distance 2500, not to
`base * maxZoom ^ level` as the claim states. -/
theorem apply_ignores_zoom_level_cex :
    (applyModel defaultZoomOptions 1280 (1, ⟨0, 0, 100⟩)).1 = 1 ∧
    ((applyModel defaultZoomOptions 1280 (1, ⟨0, 0, 100⟩)).2).norm ≠
      (baseDistance defaultZoomOptions 1280 : ℝ) *
        (defaultZoomOptions.maxZoom : ℝ) ^ (1 : ℕ) := by
  have hb : ((baseDistance defaultZoomOptions 1280 : ℚ) : ℝ) = 2500 := by
    norm_num [baseDistance, defaultZoomOptions]
  have hz : ((defaultZoomOptions.maxZoom : ℚ) : ℝ) = 0.675 := by
    norm_num [defaultZoomOptions]
  refine ⟨rfl, ?_⟩
  simp only [applyModel]
  rw [hb, hz, applyPosition_mk00 2500 100 (by norm_num),
    norm_mk00 2500 (by norm_num)]
  norm_num

/-- C4 amended: after `apply`, the zoom level field is unchanged and the
camera's distance equals the breakpoint-selected base distance alone (the
level-0 distance), regardless of the stored zoom level — `apply` ignores the
level when recomputing the distance. -/
theorem apply_keeps_level_resets_base (opts : ZoomOptions) (innerWidth : ℚ)
    (lvl : ℤ) (pos : Vec3) (hpos : pos.norm ≠ 0)
    (hb : 0 ≤ opts.mobilePosition) (hd : 0 ≤ opts.desktopPosition) :
    (applyModel opts innerWidth (lvl, pos)).1 = lvl ∧
    ((applyModel opts innerWidth (lvl, pos)).2).norm =
      (baseDistance opts innerWidth : ℝ) := by
  refine ⟨rfl, ?_⟩
  have hbase : (0 : ℝ) ≤ (baseDistance opts innerWidth : ℝ) := by
    unfold baseDistance
    split_ifs
    · exact_mod_cast hb
    · exact_mod_cast hd
  simp only [applyModel, applyPosition]
  rw [if_neg hpos, rescale_eq_scale]
  exact norm_rescale pos _ hpos hbase

/-- Witness for the amended C4: stored level 2, desktop breakpoint, camera
at `(0, 0, 100)`. -/
theorem apply_keeps_level_resets_base_witness :
    (Vec3.mk 0 0 100).norm ≠ 0 ∧
    (applyModel defaultZoomOptions 1280 (2, ⟨0, 0, 100⟩)).1 = 2 ∧
    ((applyModel defaultZoomOptions 1280 (2, ⟨0, 0, 100⟩)).2).norm =
      (baseDistance defaultZoomOptions 1280 : ℝ) := by
  have hne : (Vec3.mk 0 0 100).norm ≠ 0 := by
    rw [norm_mk00 100 (by norm_num)]; norm_num
  exact ⟨hne,
    apply_keeps_level_resets_base defaultZoomOptions 1280 2 ⟨0, 0, 100⟩ hne
      (by norm_num [defaultZoomOptions]) (by norm_num [defaultZoomOptions])⟩

/-- C9 counterexample: a gesture-driven level change with the camera exactly
at the origin produces a non-finite position (the JS `0/0` division), not
the canonical forward-facing default the claim prescribes. -/
theorem handle_zoom_zero_distance_cex :
    handleZoomPosition defaultZoomOptions 1280 ⟨0, 0, 0⟩ 1 = none ∧
    (none : Option Vec3) ≠
      some ⟨0, 0, (baseDistance defaultZoomOptions 1280 : ℝ)⟩ := by
  constructor
  · simp only [handleZoomPosition]
    rw [if_pos (norm_mk00 0 le_rfl)]
  · simp

/-- C9 amended: the resize-driven `apply` replaces a zero-length direction
with the canonical forward-facing default `(0, 0, targetDistance)`, but the
gesture-driven `handleZoom` has no such guard: with the camera at distance 0
it produces a non-finite position. -/
theorem zero_distance_guard_amended :
    (∀ (td : ℝ) (pos : Vec3), pos.norm = 0 →
        applyPosition td pos = ⟨0, 0, td⟩) ∧
    (∀ (opts : ZoomOptions) (innerWidth : ℚ) (lvl : ℕ) (pos : Vec3),
        pos.norm = 0 →
        handleZoomPosition opts innerWidth pos lvl = none) := by
  constructor
  · intro td pos h
    simp only [applyPosition]
    rw [if_pos h]
  · intro opts w lvl pos h
    simp only [handleZoomPosition]
    rw [if_pos h]

/-- Witness for the amended C9: both zoom operations evaluated at the
origin. -/
theorem zero_distance_guard_amended_witness :
    (Vec3.mk 0 0 0).norm = 0 ∧
    applyPosition 2500 ⟨0, 0, 0⟩ = ⟨0, 0, 2500⟩ ∧
    handleZoomPosition defaultZoomOptions 1280 ⟨0, 0, 0⟩ 1 = none := by
  have h : (Vec3.mk 0 0 0).norm = 0 := norm_mk00 0 le_rfl
  exact ⟨h, zero_distance_guard_amended.1 2500 _ h,
    zero_distance_guard_amended.2 _ _ 1 _ h⟩

/-! ### DriftControl (src/unnamed/part_001)

Both `DriftControl` variants share the same `applyNormalizedRotations` body;
they differ in how the constructor fills the options.  The embedding below
returns the two camera fields the method writes (`position` and
`rotation`); the `orbitControl.baseTheta`/`basePhi` bookkeeping fields are
overwritten from the same inputs on every call and feed only into the same
position formula. -/

/-- Options of `DriftControl` used by `applyNormalizedRotations`. -/
structure DriftOptions where
  maxRotationDrift : ℝ
  invertRotationDrift : Bool

/-- Constructor of the newer (liveness-checked) `DriftControl` variant
(part_001 lines 384-388): `maxRotationDrift` is hardcoded to 15 regardless
of the passed option value, and the passed invert flag is stored (but never
read afterwards). -/
def newDriftControlOptions (optMaxRotationDrift : ℝ)
    (optInvertRotationDrift : Bool) : DriftOptions :=
  { maxRotationDrift := 15, invertRotationDrift := optInvertRotationDrift }

/-- `degreesToRadians` helper of `DriftControl` (lines 420-422); note the
source negates the angle. -/
noncomputable def degreesToRadians (degrees : ℝ) : ℝ :=
  -degrees * Real.pi / 180

/-- Real-number semantics of the JS builtin `Math.atan2 y x`. -/
noncomputable def atan2 (y x : ℝ) : ℝ :=
  if 0 < x then Real.arctan (y / x)
  else if x < 0 ∧ 0 ≤ y then Real.arctan (y / x) + Real.pi
  else if x < 0 then Real.arctan (y / x) - Real.pi
  else if 0 < y then Real.pi / 2
  else if y < 0 then -(Real.pi / 2)
  else 0

/-- The two camera fields written by `applyNormalizedRotations`. -/
structure CameraOut where
  position : Vec3
  rotation : Vec3

/-- `applyNormalizedRotations` (newer variant lines 685-779; the older
variant's body at lines 277-371 is identical): reads the camera radius from
the current position; on iOS keeps the camera on the horizontal plane and
rotates it by the scaled horizontal angle, on desktop orbits by spherical
coordinates with `basePhi` offset from π/2; in both branches derives the
look-at rotation toward the origin from the normalized negated position. -/
noncomputable def applyNormalizedRotations (opts : DriftOptions)
    (isIOS : Bool) (currentPos : Vec3)
    (horizontalValue verticalValue : ℝ) : CameraOut :=
  let radius := currentPos.norm
  if isIOS then
    let horizontalAngle :=
      degreesToRadians (horizontalValue * opts.maxRotationDrift)
    let position : Vec3 :=
      ⟨radius * Real.sin horizontalAngle, 0, radius * Real.cos horizontalAngle⟩
    let dirX := -position.x
    let dirZ := -position.z
    let length := Real.sqrt (dirX * dirX + dirZ * dirZ)
    { position := position
      rotation := ⟨0, atan2 (dirX / length) (dirZ / length), 0⟩ }
  else
    let hoverOffset :=
      degreesToRadians (horizontalValue * opts.maxRotationDrift)
    let verticalOffset :=
      degreesToRadians (verticalValue * opts.maxRotationDrift)
    let baseTheta := hoverOffset
    let basePhi := Real.pi / 2 + verticalOffset
    let position : Vec3 :=
      ⟨-radius * Real.sin basePhi * Real.sin baseTheta,
        radius * Real.cos basePhi,
        radius * Real.sin basePhi * Real.cos baseTheta⟩
    let dirX := -position.x
    let dirY := -position.y
    let dirZ := -position.z
    let length := Real.sqrt (dirX * dirX + dirY * dirY + dirZ * dirZ)
    { position := position
      rotation := ⟨Real.arcsin (-(dirY / length)),
        atan2 (dirX / length) (dirZ / length), 0⟩ }

/-- Helper: norm of the mobile-branch position on the horizontal plane. -/
lemma norm_sph2 (r a : ℝ) (hr : 0 ≤ r) :
    (Vec3.mk (r * Real.sin a) 0 (r * Real.cos a)).norm = r := by
  unfold Vec3.norm
  have hs := Real.sin_sq_add_cos_sq a
  have key : r * Real.sin a * (r * Real.sin a) + 0 * 0 +
      r * Real.cos a * (r * Real.cos a) = r * r := by
    linear_combination (r * r) * hs
  rw [key, Real.sqrt_mul_self hr]

/-- Helper: norm of the desktop-branch spherical position. -/
lemma norm_sph3 (r phi theta : ℝ) (hr : 0 ≤ r) :
    (Vec3.mk (-r * Real.sin phi * Real.sin theta) (r * Real.cos phi)
      (r * Real.sin phi * Real.cos theta)).norm = r := by
  unfold Vec3.norm
  have hst := Real.sin_sq_add_cos_sq theta
  have hsp := Real.sin_sq_add_cos_sq phi
  have key : -r * Real.sin phi * Real.sin theta *
        (-r * Real.sin phi * Real.sin theta) +
      r * Real.cos phi * (r * Real.cos phi) +
      r * Real.sin phi * Real.cos theta *
        (r * Real.sin phi * Real.cos theta) = r * r := by
    linear_combination (r * r * Real.sin phi ^ 2) * hst + (r * r) * hsp
  rw [key, Real.sqrt_mul_self hr]

/-- C5: for any pointer-hover or tilt deltas clamped to `[-1, 1]`, the
position written by `applyNormalizedRotations` lies on the sphere of the
pre-update radius, on both the mobile horizontal-only branch and the desktop
spherical-orbit branch — drift never changes the camera distance from the
origin. -/
theorem drift_preserves_radius (opts : DriftOptions) (pos : Vec3)
    (hv vv : ℝ) (hh : |hv| ≤ 1) (hvv : |vv| ≤ 1) :
    (applyNormalizedRotations opts true pos hv vv).position.norm =
      pos.norm ∧
    (applyNormalizedRotations opts false pos hv vv).position.norm =
      pos.norm := by
  constructor
  · simp only [applyNormalizedRotations, if_pos]
    simpa using norm_sph2 pos.norm _ pos.norm_nonneg
  · simp only [applyNormalizedRotations]
    rw [if_neg (by simp)]
    simpa using norm_sph3 pos.norm _ _ pos.norm_nonneg

/-- Witness for C5: camera at `(0, 0, 5)` with centered deltas. -/
theorem drift_preserves_radius_witness :
    |(0 : ℝ)| ≤ 1 ∧
    (applyNormalizedRotations ⟨15, false⟩ true ⟨0, 0, 5⟩ 0 0).position.norm =
      (Vec3.mk 0 0 5).norm ∧
    (applyNormalizedRotations ⟨15, false⟩ false ⟨0, 0, 5⟩ 0 0).position.norm =
      (Vec3.mk 0 0 5).norm := by
  have h := drift_preserves_radius ⟨15, false⟩ ⟨0, 0, 5⟩ 0 0
    (by norm_num) (by norm_num)
  exact ⟨by norm_num, h.1, h.2⟩

/-- C10: in the newer (liveness-checked) `DriftControl` variant, the camera
position and rotation produced by `applyNormalizedRotations` are independent
of the constructor options `maxRotationDrift` and `invertRotationDrift`: two
instances constructed with different values of these options produce
identical outputs on every input, since the constructor hardcodes the tilt
magnitude to 15 degrees and the stored invert flag is never read. -/
theorem drift_options_noninterference (m1 m2 : ℝ) (i1 i2 : Bool)
    (isIOS : Bool) (pos : Vec3) (hv vv : ℝ) :
    applyNormalizedRotations (newDriftControlOptions m1 i1) isIOS pos hv vv =
      applyNormalizedRotations (newDriftControlOptions m2 i2) isIOS pos hv vv :=
  rfl

/-! ### RotationControl (src/unnamed/part_002) -/

/-- Pitch/yaw pair; the `z` component of the rotation objects is never
touched by the drag or animation code. -/
structure Rot2 where
  x : ℝ
  y : ℝ

/-- Real-number semantics of the JS builtin `Math.round`: round half toward
positive infinity. -/
noncomputable def jsRound (x : ℝ) : ℤ := ⌊x + 1 / 2⌋

/-- `findNearestCardinalRotation` (lines 289-298): converts the yaw to
degrees, rounds to the nearest multiple of 180 degrees, and converts back to
radians. -/
noncomputable def findNearestCardinalRotation
    (currentRotationRadians : ℝ) : ℝ :=
  let currentDegrees := currentRotationRadians * 180 / Real.pi
  let nearestMultiple : ℝ := (jsRound (currentDegrees / 180) : ℝ) * 180
  nearestMultiple * Real.pi / 180

/-- `easeInOutQuad` (lines 415-417). -/
noncomputable def easeInOutQuad (t : ℝ) : ℝ :=
  if t < 0.5 then 2 * t * t else -1 + (4 - 2 * t) * t

/-- State of `RotationControl` touched by the auto-rotation completion. -/
structure AutoRotState where
  currentRotation : Rot2
  targetRotation : Rot2
  hasManualRotation : Bool

/-- One interpolation frame of `startAutoRotation` at progress `p` (lines
370-385), from the start rotation captured at line 360 and the cardinal
target yaw computed at line 356. -/
noncomputable def autoRotationFrame (startRotation : Rot2)
    (targetY p : ℝ) : Rot2 :=
  let easedProgress := easeInOutQuad p
  ⟨startRotation.x * (1 - easedProgress),
    startRotation.y + (targetY - startRotation.y) * easedProgress⟩

/-- Completion of `startAutoRotation`: the cardinal target yaw is computed
from the yaw at auto-rotation start (line 356), the last frame runs at
progress 1 (lines 370-385), the target rotation is synced to the current one
(line 382), then the completion branch (lines 390-397) clears the
manual-rotation flag and pins both yaws exactly to the cardinal target. -/
noncomputable def startAutoRotationComplete (st : AutoRotState) :
    AutoRotState :=
  let targetY := findNearestCardinalRotation st.currentRotation.y
  let last := autoRotationFrame st.currentRotation targetY 1
  { currentRotation := ⟨last.x, targetY⟩
    targetRotation := ⟨last.x, targetY⟩
    hasManualRotation := false }

/-- Helper: `findNearestCardinalRotation` is rounding to the nearest integer
multiple of π. -/
lemma findNearestCardinalRotation_eq (y : ℝ) :
    findNearestCardinalRotation y = (round (y / Real.pi) : ℝ) * Real.pi := by
  have h1 : y * 180 / Real.pi / 180 = y / Real.pi := by
    field_simp
    ring
  simp only [findNearestCardinalRotation, jsRound]
  rw [h1, round_eq]
  ring

/-- Helper: the quadratic ease-in-out curve ends exactly at 1. -/
lemma easeInOutQuad_one : easeInOutQuad 1 = 1 := by
  unfold easeInOutQuad
  rw [if_neg (by norm_num)]
  norm_num

/-- C6: when the auto-rotation animation runs to completion, the final yaw
is exactly the nearest integer multiple of π (180 degrees) to the yaw at
auto-rotation start, the final pitch is exactly 0, and the manual-rotation
flag is cleared. -/
theorem auto_rotation_completion (st : AutoRotState) :
    ((startAutoRotationComplete st).currentRotation).x = 0 ∧
    (∃ k : ℤ, ((startAutoRotationComplete st).currentRotation).y =
        (k : ℝ) * Real.pi) ∧
    (∀ m : ℤ, |((startAutoRotationComplete st).currentRotation).y -
        st.currentRotation.y| ≤
      |(m : ℝ) * Real.pi - st.currentRotation.y|) ∧
    (startAutoRotationComplete st).hasManualRotation = false := by
  have hx : ((startAutoRotationComplete st).currentRotation).x =
      st.currentRotation.x * (1 - easeInOutQuad 1) := rfl
  have hy : ((startAutoRotationComplete st).currentRotation).y =
      findNearestCardinalRotation st.currentRotation.y := rfl
  have hpi : (0 : ℝ) < Real.pi := Real.pi_pos
  have hcan : (st.currentRotation.y / Real.pi) * Real.pi =
      st.currentRotation.y := div_mul_cancel₀ _ Real.pi_ne_zero
  refine ⟨?_, ?_, ?_, rfl⟩
  · rw [hx, easeInOutQuad_one]
    ring
  · exact ⟨round (st.currentRotation.y / Real.pi),
      by rw [hy, findNearestCardinalRotation_eq]⟩
  · intro m
    rw [hy, findNearestCardinalRotation_eq]
    set u := st.currentRotation.y / Real.pi with hu
    calc |(round u : ℝ) * Real.pi - st.currentRotation.y|
        = |(round u : ℝ) - u| * Real.pi := by
          rw [← hcan, ← sub_mul, abs_mul, abs_of_pos hpi]
      _ = |u - (round u : ℝ)| * Real.pi := by rw [abs_sub_comm]
      _ ≤ |u - (m : ℝ)| * Real.pi :=
          mul_le_mul_of_nonneg_right (round_le u m) hpi.le
      _ = |(m : ℝ) - u| * Real.pi := by rw [abs_sub_comm]
      _ = |(m : ℝ) * Real.pi - st.currentRotation.y| := by
          rw [← hcan, ← sub_mul, abs_mul, abs_of_pos hpi]

/-- State of `RotationControl` touched by a drag session's pointer-move. -/
structure DragState where
  isDragging : Bool
  previousMouseX : ℝ
  previousMouseY : ℝ
  targetRotationX : ℝ
  targetRotationY : ℝ
  hasManualRotation : Bool

/-- `handlePointerMove` for the non-touch platform (lines 170-210): no-op
unless dragging; otherwise accumulates yaw by `deltaX * sensitivity * 0.01`,
accumulates pitch the same way but clamped to the vertical limit converted
to radians, records the pointer position and sets the manual-rotation
flag. -/
noncomputable def handlePointerMove (sensitivity verticalLimit : ℝ)
    (st : DragState) (clientX clientY : ℝ) : DragState :=
  if st.isDragging then
    let deltaMoveX := clientX - st.previousMouseX
    let deltaMoveY := clientY - st.previousMouseY
    let newTargetRotationY :=
      st.targetRotationY + deltaMoveX * sensitivity * 0.01
    let newTargetX := st.targetRotationX + deltaMoveY * sensitivity * 0.01
    let verticalLimitRadians := verticalLimit * Real.pi / 180
    { isDragging := st.isDragging
      previousMouseX := clientX
      previousMouseY := clientY
      targetRotationX :=
        max (-verticalLimitRadians) (min verticalLimitRadians newTargetX)
      targetRotationY := newTargetRotationY
      hasManualRotation := true }
  else st

/-- C7: during a drag, each pointer-move adds exactly
`deltaX * sensitivity * 0.01` to the target yaw, sets the target pitch to
the clamp of the accumulated `deltaY * sensitivity * 0.01` into
`[-verticalLimit, verticalLimit]` degrees converted to radians, and the
resulting pitch always lies within that limit. -/
theorem pointer_move_accumulation (sensitivity verticalLimit : ℝ)
    (st : DragState) (clientX clientY : ℝ)
    (hd : st.isDragging = true) (hL : 0 ≤ verticalLimit) :
    (handlePointerMove sensitivity verticalLimit st clientX
        clientY).targetRotationY =
      st.targetRotationY + (clientX - st.previousMouseX) * sensitivity * 0.01 ∧
    (handlePointerMove sensitivity verticalLimit st clientX
        clientY).targetRotationX =
      max (-(verticalLimit * Real.pi / 180))
        (min (verticalLimit * Real.pi / 180)
          (st.targetRotationX +
            (clientY - st.previousMouseY) * sensitivity * 0.01)) ∧
    |(handlePointerMove sensitivity verticalLimit st clientX
        clientY).targetRotationX| ≤ verticalLimit * Real.pi / 180 := by
  have hLrad : 0 ≤ verticalLimit * Real.pi / 180 := by positivity
  unfold handlePointerMove
  rw [if_pos hd]
  refine ⟨rfl, rfl, ?_⟩
  rw [abs_le]
  constructor
  · exact le_max_left _ _
  · exact max_le (by linarith) (min_le_left _ _)

/-- Witness for C7: a `(100, 0)` pixel move at sensitivity 1 adds exactly
1 radian of yaw. -/
theorem pointer_move_accumulation_witness :
    (DragState.mk true 0 0 0 0 false).isDragging = true ∧ (0 : ℝ) ≤ 45 ∧
    (handlePointerMove 1 45 ⟨true, 0, 0, 0, 0, false⟩ 100
      0).targetRotationY = 1 := by
  have h := pointer_move_accumulation 1 45 ⟨true, 0, 0, 0, 0, false⟩ 100 0
    rfl (by norm_num)
  refine ⟨rfl, by norm_num, ?_⟩
  rw [h.1]
  norm_num

/-- State of `RotationControl` touched by the easing loops. -/
structure MomentumState where
  targetRotationX : ℝ
  targetRotationY : ℝ
  currentRotationX : ℝ
  currentRotationY : ℝ

/-- One frame of the easing loops (`startRotationAnimation` lines 265-266,
`startMomentumAnimation` lines 310-311): advance the current rotation toward
the target by the fraction `dragEasing` on each axis. -/
def momentumLerp (dragEasing : ℝ) (st : MomentumState) : MomentumState :=
  { st with
    currentRotationX := st.currentRotationX +
      (st.targetRotationX - st.currentRotationX) * dragEasing
    currentRotationY := st.currentRotationY +
      (st.targetRotationY - st.currentRotationY) * dragEasing }

/-- Rest branch of `startMomentumAnimation` (lines 320-325): once both axis
deltas are within the threshold the loop stops and `currentRotation.y` is
pinned exactly to `targetRotation.y`. -/
def momentumFinish (st : MomentumState) : MomentumState :=
  { st with currentRotationY := st.targetRotationY }

/-- Helper: after `n` frames the per-axis delta is the initial delta scaled
by `(1 - dragEasing) ^ n`; the targets are unchanged. -/
lemma momentum_iterate_diff (e : ℝ) (st : MomentumState) (n : ℕ) :
    ((momentumLerp e)^[n] st).targetRotationX -
        ((momentumLerp e)^[n] st).currentRotationX =
      (st.targetRotationX - st.currentRotationX) * (1 - e) ^ n ∧
    ((momentumLerp e)^[n] st).targetRotationY -
        ((momentumLerp e)^[n] st).currentRotationY =
      (st.targetRotationY - st.currentRotationY) * (1 - e) ^ n := by
  induction n with
  | zero => simp
  | succ n ih =>
      rw [Function.iterate_succ_apply']
      constructor
      · calc (momentumLerp e ((momentumLerp e)^[n] st)).targetRotationX -
              (momentumLerp e ((momentumLerp e)^[n] st)).currentRotationX
            = (((momentumLerp e)^[n] st).targetRotationX -
                ((momentumLerp e)^[n] st).currentRotationX) * (1 - e) := by
              simp only [momentumLerp]
              ring
          _ = (st.targetRotationX - st.currentRotationX) * (1 - e) ^ (n + 1) := by
              rw [ih.1]
              ring
      · calc (momentumLerp e ((momentumLerp e)^[n] st)).targetRotationY -
              (momentumLerp e ((momentumLerp e)^[n] st)).currentRotationY
            = (((momentumLerp e)^[n] st).targetRotationY -
                ((momentumLerp e)^[n] st).currentRotationY) * (1 - e) := by
              simp only [momentumLerp]
              ring
          _ = (st.targetRotationY - st.currentRotationY) * (1 - e) ^ (n + 1) := by
              rw [ih.2]
              ring

/-- C8: for a fixed target and any per-frame easing factor in `(0, 2)` (the
code's defaults 0.9 and 1.22·0.9 both are), each frame step never increases
the per-axis distance to the target and strictly decreases it while nonzero;
after finitely many frames both axes are within any positive threshold; and
the rest branch pins `currentRotation.y` exactly to `targetRotation.y`, a
value further frame steps do not change. -/
theorem momentum_easing_converges (e th : ℝ) (he0 : 0 < e) (he2 : e < 2)
    (hth : 0 < th) (st : MomentumState) :
    (∀ s : MomentumState,
      |(momentumLerp e s).targetRotationX -
          (momentumLerp e s).currentRotationX| ≤
        |s.targetRotationX - s.currentRotationX| ∧
      |(momentumLerp e s).targetRotationY -
          (momentumLerp e s).currentRotationY| ≤
        |s.targetRotationY - s.currentRotationY| ∧
      (s.targetRotationX ≠ s.currentRotationX →
        |(momentumLerp e s).targetRotationX -
            (momentumLerp e s).currentRotationX| <
          |s.targetRotationX - s.currentRotationX|) ∧
      (s.targetRotationY ≠ s.currentRotationY →
        |(momentumLerp e s).targetRotationY -
            (momentumLerp e s).currentRotationY| <
          |s.targetRotationY - s.currentRotationY|)) ∧
    (∃ n : ℕ,
      |((momentumLerp e)^[n] st).targetRotationX -
          ((momentumLerp e)^[n] st).currentRotationX| ≤ th ∧
      |((momentumLerp e)^[n] st).targetRotationY -
          ((momentumLerp e)^[n] st).currentRotationY| ≤ th) ∧
    ((momentumFinish st).currentRotationY =
        (momentumFinish st).targetRotationY ∧
      (momentumLerp e (momentumFinish st)).currentRotationY =
        (momentumLerp e (momentumFinish st)).targetRotationY) := by
  have h1e_le : |1 - e| ≤ 1 := abs_le.mpr ⟨by linarith, by linarith⟩
  have h1e_lt : |1 - e| < 1 := abs_lt.mpr ⟨by linarith, by linarith⟩
  have step_eq : ∀ s : MomentumState,
      ((momentumLerp e s).targetRotationX -
          (momentumLerp e s).currentRotationX =
        (s.targetRotationX - s.currentRotationX) * (1 - e)) ∧
      ((momentumLerp e s).targetRotationY -
          (momentumLerp e s).currentRotationY =
        (s.targetRotationY - s.currentRotationY) * (1 - e)) := by
    intro s
    constructor <;> (simp only [momentumLerp]; ring)
  refine ⟨?_, ?_, rfl, ?_⟩
  · intro s
    refine ⟨?_, ?_, ?_, ?_⟩
    · rw [(step_eq s).1, abs_mul]
      exact mul_le_of_le_one_right (abs_nonneg _) h1e_le
    · rw [(step_eq s).2, abs_mul]
      exact mul_le_of_le_one_right (abs_nonneg _) h1e_le
    · intro hne
      rw [(step_eq s).1, abs_mul]
      exact mul_lt_of_lt_one_right (abs_pos.mpr (sub_ne_zero.mpr hne)) h1e_lt
    · intro hne
      rw [(step_eq s).2, abs_mul]
      exact mul_lt_of_lt_one_right (abs_pos.mpr (sub_ne_zero.mpr hne)) h1e_lt
  · set dx := st.targetRotationX - st.currentRotationX with hdx
    set dy := st.targetRotationY - st.currentRotationY with hdy
    set D := max |dx| |dy| with hD
    by_cases hDth : D ≤ th
    · refine ⟨0, ?_, ?_⟩
      · simpa using le_trans (le_max_left |dx| |dy|) hDth
      · simpa using le_trans (le_max_right |dx| |dy|) hDth
    · push_neg at hDth
      have hDpos : 0 < D := lt_trans hth hDth
      obtain ⟨n, hn⟩ :=
        exists_pow_lt_of_lt_one (div_pos hth hDpos) h1e_lt
      have hpow : D * |1 - e| ^ n < th := by
        have h2 : D * |1 - e| ^ n < D * (th / D) :=
          mul_lt_mul_of_pos_left hn hDpos
        rwa [mul_div_cancel₀ th hDpos.ne'] at h2
      refine ⟨n, ?_, ?_⟩
      · rw [(momentum_iterate_diff e st n).1, abs_mul, abs_pow]
        have h1 : |dx| * |1 - e| ^ n ≤ D * |1 - e| ^ n :=
          mul_le_mul_of_nonneg_right (le_max_left _ _)
            (pow_nonneg (abs_nonneg _) n)
        linarith
      · rw [(momentum_iterate_diff e st n).2, abs_mul, abs_pow]
        have h1 : |dy| * |1 - e| ^ n ≤ D * |1 - e| ^ n :=
          mul_le_mul_of_nonneg_right (le_max_right _ _)
            (pow_nonneg (abs_nonneg _) n)
        linarith
  · simp only [momentumLerp, momentumFinish]
    ring

/-- Witness for C8: the code's desktop default easing 0.9 and threshold
0.001, from targets `(1, 1)` and current `(0, 0)`. -/
theorem momentum_easing_converges_witness :
    (0 : ℝ) < 0.9 ∧ (0.9 : ℝ) < 2 ∧ (0 : ℝ) < 0.001 ∧
    ∃ n : ℕ,
      |((momentumLerp (0.9 : ℝ))^[n] ⟨1, 1, 0, 0⟩).targetRotationX -
          ((momentumLerp (0.9 : ℝ))^[n] ⟨1, 1, 0, 0⟩).currentRotationX| ≤
        0.001 ∧
      |((momentumLerp (0.9 : ℝ))^[n] ⟨1, 1, 0, 0⟩).targetRotationY -
          ((momentumLerp (0.9 : ℝ))^[n] ⟨1, 1, 0, 0⟩).currentRotationY| ≤
        0.001 := by
  have h := momentum_easing_converges 0.9 0.001 (by norm_num) (by norm_num)
    (by norm_num) ⟨1, 1, 0, 0⟩
  exact ⟨by norm_num, by norm_num, by norm_num, h.2.1⟩

end DemoGems
